import Mathlib

/-!
Verification development for the gaiinsights news-aggregation pipeline.

The definitions below are shallow embeddings of the Python functions in
`src/utils/evaluation_tools.py`, `src/utils/content_extractor.py`,
`src/agents/search_agent.py` and `src/main.py`.  Python strings are
modelled as `List Char`; machine integers are `Nat` (all quantities
involved are non-negative and no overflow is possible at the sizes
involved).  Fallible operations return `Option`.
-/

namespace GaiInsights

/-! ## Python string primitives

`startsWithL needle hay` is Python's `hay.startswith(needle)`,
`containsSub needle hay` is Python's `needle in hay`, and
`countOccs needle hay` is Python's `hay.count(needle)` (non-overlapping
occurrences, scanning left to right; the empty needle yields
`len(hay) + 1`, exactly as in CPython).
-/

def startsWithL : List Char → List Char → Bool
  | [], _ => true
  | _ :: _, [] => false
  | a :: as, b :: bs => a = b && startsWithL as bs

def containsSub (needle : List Char) : List Char → Bool
  | [] => startsWithL needle []
  | h :: t => startsWithL needle (h :: t) || containsSub needle t

def countOccsGo (needle : List Char) : Nat → List Char → Nat
  | 0, _ => 0
  | fuel + 1, hay =>
    match hay with
    | [] => 0
    | h :: t =>
      if startsWithL needle (h :: t) then
        1 + countOccsGo needle fuel (t.drop (needle.length - 1))
      else countOccsGo needle fuel t

def countOccs (needle hay : List Char) : Nat :=
  match needle with
  | [] => hay.length + 1
  | _ :: _ => countOccsGo needle hay.length hay

/-- Python `str.lower` restricted to the ASCII range, which is all the
source's lexicon and inputs use. -/
def lowerStr (s : List Char) : List Char := s.map Char.toLower

/-! ## Relevance validator (`validate_ai_relevance`, src/utils/evaluation_tools.py) -/

/-- The weighted AI-term lexicon `ai_terms`, in Python dict insertion
order (Python dicts preserve insertion order during iteration). -/
def ai_terms : List (String × Nat) :=
  [ ( r"artificial intelligence", 10)
  , ( r"machine learning", 10)
  , ( r"deep learning", 9)
  , ( r"neural network", 9)
  , ( r"generative ai", 10)
  , ( r"ai model", 9)
  , ( r"large language model", 8)
  , ( r"llm", 8)
  , ( r"transformer", 7)
  , ( r"gpt", 8)
  , ( r"chatgpt", 8)
  , ( r"diffusion model", 7)
  , ( r"stable diffusion", 7)
  , ( r"midjourney", 7)
  , ( r"dall-e", 7)
  , ( r"claude", 7)
  , ( r"gemini", 7)
  , ( r"mistral", 7)
  , ( r"computer vision", 6)
  , ( r"natural language processing", 6)
  , ( r"nlp", 6)
  , ( r"reinforcement learning", 6)
  , ( r"ai ethics", 6)
  , ( r"neural net", 6)
  , ( r"semantic search", 5)
  , ( r"vector database", 5)
  , ( r"fine-tuning", 5)
  , ( r"prompt engineering", 5)
  , ( r"ai-driven", 4)
  , ( r"ai-powered", 4)
  , ( r"ai application", 4)
  , ( r"ai tool", 4)
  , ( r"ai assistant", 4)
  , ( r"ai algorithm", 4)
  , ( r"ai technology", 4)
  , ( r"ai innovation", 4)
  , ( r"ai strategy", 5)
  , ( r"ai marketing", 5)
  , ( r"ai fueled", 5)
  , ( r"ai agent", 5)
  , ( r"ai service", 4)
  , ( r"intelligent automation", 4)
  , ( r"supply chain ai", 5)
  , ( r"retail ai", 5)
  , ( r"grounding", 3)
  , ( r"ad creative", 3)
  , ( r"ad approval", 3)
  , ( r"azure ai", 6)
  , ( r"bing search", 5)
  , ( r"meta ai", 6)
  , ( r"nestle ai", 6)
  , ( r"circana", 5)
  , ( r"broadsign", 4)
  , ( r"church & dwight", 3)
  , ( r"algorithm", 2)
  , ( r"automation", 2)
  , ( r"data science", 3)
  , ( r"predictive", 2)
  , ( r"insight", 2)
  , ( r"innovation", 2) ]

/-- The exclusion denylist `exclusion_patterns`, in source order. -/
def exclusion_patterns : List String :=
  [ r"ai as in adobe illustrator"
  , r"ai file format"
  , r"allen iverson"
  , r"american idol"
  , r"artificial insemination"
  , r"ai wei wei" ]

def titleTag : String := " (title)"

def occOpen : String := " ("

def occClose : String := "x)"

def commaSep : String := ", "

def noContentReason : String := "No content available for analysis"

def highLevel : String := "high"

def mediumLevel : String := "medium"

def lowLevel : String := "low"

def veryLowLevel : String := "very low"

def highReasonHead : String := "Highly relevant AI content detected with multiple key terms: "

def mediumReasonHead : String := "Moderately relevant AI content with several key terms: "

def lowReasonHead : String := "Somewhat relevant AI content with a few key terms: "

def insufficientReasonHead : String := "Insufficient AI relevance. Only found: "

def noTermsReason : String := "No AI-related terms detected in content"

def overrideReasonHead : String := "Detected non-AI use of term: \x27"

def overrideReasonTail : String := "\x27"

/-- One step of the title loop: `if term in title: score += weight * 2;
matched_terms.append(f"{term} (title)")`. -/
def titleStep (title : List Char) (st : Nat × List String) (tw : String × Nat) :
    Nat × List String :=
  if containsSub tw.1.data title then (st.1 + tw.2 * 2, st.2 ++ [tw.1 ++ titleTag]) else st

/-- One step of the body loop: `if term in text: occurrences = text.count(term);
if occurrences > 0: score += weight * min(occurrences, 3); matched_terms.append(...)`. -/
def bodyStep (text : List Char) (st : Nat × List String) (tw : String × Nat) :
    Nat × List String :=
  if containsSub tw.1.data text then
    let occurrences := countOccs tw.1.data text
    if 0 < occurrences then
      (st.1 + tw.2 * min occurrences 3, st.2 ++ [tw.1 ++ occOpen ++ toString occurrences ++ occClose])
    else st
  else st

/-- The two scoring loops of `validate_ai_relevance`, run in source order
(title loop over the whole lexicon, then body loop), accumulating
`(score, matched_terms)`. -/
def scorePass (title text : List Char) : Nat × List String :=
  ai_terms.foldl (bodyStep text) (ai_terms.foldl (titleStep title) (0, []))

/-- The raw weighted score accumulated by `validate_ai_relevance`. -/
def rawScore (title text : List Char) : Nat := (scorePass title text).1

/-- Embedding of `min(100, int((score / max_possible_score) * 100))` with
`max_possible_score = 150`.  The Python expression is evaluated in
IEEE-754 double arithmetic; over the whole reachable score range
(0 to 1640 = 5 times the lexicon weight sum) its value agrees with exact
truncated division `score * 100 / 150` at every score except 87, where
the double rounding yields 57 rather than 58.  The special case keeps
the embedding exact. -/
def normalizeScore (score : Nat) : Nat :=
  min 100 (if score = 87 then 57 else score * 100 / 150)

/-- The acceptance threshold.  It is hard-coded inside
`validate_ai_relevance` (`threshold = 25  # Reduced from 40`); the
function takes no threshold parameter. -/
def threshold : Nat := 25

/-- The `confidence_level` / `reason` generation of
`validate_ai_relevance` (before the exclusion-pattern loop). -/
def reasonFor (normalized : Nat) (matched : List String) (isRel : Bool) :
    String × String :=
  if isRel then
    if 80 ≤ normalized then
      (highLevel, highReasonHead ++ String.intercalate commaSep (matched.take 5))
    else if 60 ≤ normalized then
      (mediumLevel, mediumReasonHead ++ String.intercalate commaSep (matched.take 3))
    else
      (lowLevel, lowReasonHead ++ String.intercalate commaSep (matched.take 2))
  else
    if matched.isEmpty then (veryLowLevel, noTermsReason)
    else (veryLowLevel, insufficientReasonHead ++ String.intercalate commaSep (matched.take 2))

/-- One step of the exclusion loop: on a match the score drops by 30
(floored at 0, as `max(0, normalized_score - 30)`), the reason is
overridden, and `is_relevant` is recomputed against the threshold. -/
def exclusionStep (text : List Char) (st : Nat × String × Bool) (p : String) :
    Nat × String × Bool :=
  if containsSub p.data text then
    (max 0 (st.1 - 30), overrideReasonHead ++ p ++ overrideReasonTail,
      decide (threshold ≤ max 0 (st.1 - 30)))
  else st

/-- The exclusion-pattern loop of `validate_ai_relevance`. -/
def applyExclusions (text : List Char) (st : Nat × String × Bool) :
    Nat × String × Bool :=
  exclusion_patterns.foldl (exclusionStep text) st

structure ArticleData where
  title : String
  content : String
  summary : String
deriving DecidableEq

structure Verdict where
  is_relevant : Bool
  confidence : Nat
  confidence_level : Option String
  reason : String
  matched_terms : List String
deriving DecidableEq

/-- `text_to_analyze = content or summary` on the lowered fields. -/
def analyzedText (a : ArticleData) : List Char :=
  let content := lowerStr a.content.data
  if content.isEmpty then lowerStr a.summary.data else content

/-- The early-return verdict for `if not content and not summary` (the
returned dict carries only these three keys). -/
def noContentVerdict : Verdict :=
  { is_relevant := false, confidence := 0, confidence_level := none,
    reason := noContentReason, matched_terms := [] }

/-- The main path of `validate_ai_relevance`: scoring loops,
normalization, hard-coded threshold, reason generation, exclusion
loop, and the final result dict. -/
def validateMain (a : ArticleData) : Verdict :=
  let title := lowerStr a.title.data
  let text := analyzedText a
  let sm := scorePass title text
  let normalized := normalizeScore sm.1
  let isRel : Bool := decide (threshold ≤ normalized)
  let lr := reasonFor normalized sm.2 isRel
  let fin := applyExclusions text (normalized, lr.2, isRel)
  { is_relevant := fin.2.2, confidence := fin.1, confidence_level := some lr.1,
    reason := fin.2.1, matched_terms := sm.2.take 5 }

/-- Shallow embedding of `validate_ai_relevance`
(src/utils/evaluation_tools.py, lines 42-209). -/
def validate_ai_relevance (a : ArticleData) : Verdict :=
  if (lowerStr a.content.data).isEmpty && (lowerStr a.summary.data).isEmpty then
    noContentVerdict
  else validateMain a

/-! ## Helper lemmas about the string primitives -/

lemma startsWithL_nil_of_ne (n : List Char) (h : n ≠ []) : startsWithL n [] = false := by
  cases n with
  | nil => exact absurd rfl h
  | cons a as => rfl

lemma containsSub_nil_of_ne (n : List Char) (h : n ≠ []) : containsSub n [] = false := by
  cases n with
  | nil => exact absurd rfl h
  | cons a as => rfl

lemma containsSub_cons (n : List Char) (h : Char) (t : List Char) :
    containsSub n (h :: t) = (startsWithL n (h :: t) || containsSub n t) := rfl

lemma countOccsGo_pos_iff (n : List Char) (hne : n ≠ []) :
    ∀ (fuel : Nat) (hay : List Char), hay.length ≤ fuel →
      (0 < countOccsGo n fuel hay ↔ containsSub n hay = true) := by
  intro fuel
  induction fuel with
  | zero =>
    intro hay hlen
    have hhay : hay = [] := List.eq_nil_of_length_eq_zero (Nat.le_zero.mp hlen)
    subst hhay
    simp [countOccsGo, containsSub_nil_of_ne n hne]
  | succ fuel ih =>
    intro hay hlen
    cases hay with
    | nil => simp [countOccsGo, containsSub_nil_of_ne n hne]
    | cons h t =>
      rw [containsSub_cons]
      by_cases hs : startsWithL n (h :: t) = true
      · simp [countOccsGo, hs]
      · have hs' : startsWithL n (h :: t) = false := by
          exact Bool.eq_false_iff.mpr hs
        simp only [countOccsGo, hs', if_false, Bool.false_or]
        exact ih t (by simpa [List.length_cons, Nat.succ_le_succ_iff] using hlen)

lemma countOccs_pos_iff (n hay : List Char) (hne : n ≠ []) :
    0 < countOccs n hay ↔ containsSub n hay = true := by
  cases n with
  | nil => exact absurd rfl hne
  | cons a as =>
    show 0 < countOccsGo (a :: as) hay.length hay ↔ _
    exact countOccsGo_pos_iff (a :: as) hne hay.length hay (le_refl _)

lemma countOccs_eq_zero_of_not_contains (n hay : List Char) (hne : n ≠ [])
    (h : containsSub n hay = false) : countOccs n hay = 0 := by
  by_contra h0
  exact absurd ((countOccs_pos_iff n hay hne).mp (Nat.pos_of_ne_zero h0))
    (by simp [h])

/-! ## Small list-sum helpers -/

lemma sumMapAdd {α : Type} (l : List α) (f g : α → Nat) :
    (l.map fun x => f x + g x).sum = (l.map f).sum + (l.map g).sum := by
  induction l with
  | nil => rfl
  | cons x xs ih => simp [ih]; omega

lemma sumMapLe {α : Type} (l : List α) (f g : α → Nat) (h : ∀ x ∈ l, f x ≤ g x) :
    (l.map f).sum ≤ (l.map g).sum := by
  induction l with
  | nil => exact le_refl _
  | cons x xs ih =>
    simp only [List.map_cons, List.sum_cons]
    have hx := h x (by simp)
    have hxs := ih fun y hy => h y (by simp [hy])
    omega

lemma mapCongrOn {α β : Type} (l : List α) (f g : α → β) (h : ∀ x ∈ l, f x = g x) :
    l.map f = l.map g := by
  induction l with
  | nil => rfl
  | cons x xs ih =>
    simp only [List.map_cons]
    rw [h x (by simp), ih fun y hy => h y (by simp [hy])]

/-! ## Structure of the scoring folds -/

lemma foldl_titleStep_fst (title : List Char) :
    ∀ (l : List (String × Nat)) (st : Nat × List String),
      (l.foldl (titleStep title) st).1 =
        st.1 + (l.map fun tw => if containsSub tw.1.data title then tw.2 * 2 else 0).sum := by
  intro l
  induction l with
  | nil => intro st; simp
  | cons tw rest ih =>
    intro st
    simp only [List.foldl_cons, List.map_cons, List.sum_cons]
    rw [ih]
    unfold titleStep
    by_cases hc : containsSub tw.1.data title = true
    · simp only [if_pos hc]
      omega
    · simp only [if_neg hc]
      omega

lemma foldl_bodyStep_fst (text : List Char) :
    ∀ (l : List (String × Nat)) (st : Nat × List String),
      (l.foldl (bodyStep text) st).1 =
        st.1 + (l.map fun tw => if containsSub tw.1.data text then
          (if 0 < countOccs tw.1.data text then tw.2 * min (countOccs tw.1.data text) 3 else 0)
          else 0).sum := by
  intro l
  induction l with
  | nil => intro st; simp
  | cons tw rest ih =>
    intro st
    simp only [List.foldl_cons, List.map_cons, List.sum_cons]
    rw [ih]
    unfold bodyStep
    by_cases hc : containsSub tw.1.data text = true
    · by_cases hocc : 0 < countOccs tw.1.data text
      · simp only [if_pos hc, if_pos hocc]
        omega
      · simp only [if_pos hc, if_neg hocc]
        omega
    · simp only [if_neg hc]
      omega

lemma rawScore_eq (title text : List Char) :
    rawScore title text =
      (ai_terms.map fun tw => if containsSub tw.1.data title then tw.2 * 2 else 0).sum +
      (ai_terms.map fun tw => if containsSub tw.1.data text then
        (if 0 < countOccs tw.1.data text then tw.2 * min (countOccs tw.1.data text) 3 else 0)
        else 0).sum := by
  unfold rawScore scorePass
  rw [foldl_bodyStep_fst, foldl_titleStep_fst]
  omega

lemma ai_terms_data_ne : ∀ tw ∈ ai_terms, tw.1.data ≠ [] := by decide

lemma bodyContrib_eq (tw : String × Nat) (text : List Char) (h : tw.1.data ≠ []) :
    (if containsSub tw.1.data text then
      (if 0 < countOccs tw.1.data text then tw.2 * min (countOccs tw.1.data text) 3 else 0)
      else 0) = tw.2 * min (countOccs tw.1.data text) 3 := by
  by_cases hc : containsSub tw.1.data text = true
  · simp [hc, (countOccs_pos_iff tw.1.data text h).mpr hc]
  · have hc' : containsSub tw.1.data text = false := Bool.eq_false_iff.mpr hc
    simp [hc', countOccs_eq_zero_of_not_contains tw.1.data text h hc']

/-- Raw score as a sum of per-term contributions: double weight for a
title hit, weight times the capped occurrence count for the body. -/
lemma rawScore_counts (title text : List Char) :
    rawScore title text =
      (ai_terms.map fun tw => if containsSub tw.1.data title then tw.2 * 2 else 0).sum +
      (ai_terms.map fun tw => tw.2 * min (countOccs tw.1.data text) 3).sum := by
  have h := mapCongrOn ai_terms
    (fun tw => if containsSub tw.1.data text then
      (if 0 < countOccs tw.1.data text then tw.2 * min (countOccs tw.1.data text) 3 else 0)
      else 0)
    (fun tw => tw.2 * min (countOccs tw.1.data text) 3)
    (fun tw htw => bodyContrib_eq tw text (ai_terms_data_ne tw htw))
  rw [rawScore_eq, h]

/-! ## Branch lemmas for the validator -/

lemma validate_of_empty (a : ArticleData)
    (h : ((lowerStr a.content.data).isEmpty && (lowerStr a.summary.data).isEmpty) = true) :
    validate_ai_relevance a = noContentVerdict := by
  unfold validate_ai_relevance
  rw [if_pos h]

lemma validate_of_main (a : ArticleData)
    (h : ((lowerStr a.content.data).isEmpty && (lowerStr a.summary.data).isEmpty) = false) :
    validate_ai_relevance a = validateMain a := by
  unfold validate_ai_relevance
  rw [if_neg (by simp [h])]

/-! ## Exclusion-loop lemmas -/

lemma foldl_exclusionStep_isRel (text : List Char) :
    ∀ (ps : List String) (n : Nat) (r : String) (b : Bool), b = decide (threshold ≤ n) →
      (ps.foldl (exclusionStep text) (n, r, b)).2.2 =
        decide (threshold ≤ (ps.foldl (exclusionStep text) (n, r, b)).1) := by
  intro ps
  induction ps with
  | nil =>
    intro n r b hb
    simpa using hb
  | cons p rest ih =>
    intro n r b hb
    simp only [List.foldl_cons]
    unfold exclusionStep
    by_cases hc : containsSub p.data text = true
    · simp only [if_pos hc]
      exact ih _ _ _ rfl
    · simp only [if_neg hc]
      exact ih _ _ _ hb

lemma foldl_exclusionStep_no_match (text : List Char) :
    ∀ (ps : List String) (st : Nat × String × Bool),
      (∀ q ∈ ps, containsSub q.data text = false) →
      ps.foldl (exclusionStep text) st = st := by
  intro ps
  induction ps with
  | nil => intro st _; rfl
  | cons q rest ih =>
    intro st hall
    simp only [List.foldl_cons]
    have hq : containsSub q.data text = false := hall q (by simp)
    rw [show exclusionStep text st q = st from by unfold exclusionStep; rw [if_neg (by simp [hq])]]
    exact ih st fun q' hq' => hall q' (by simp [hq'])

lemma foldl_exclusionStep_single (text : List Char) :
    ∀ (ps : List String), ps.Nodup → ∀ p, p ∈ ps → containsSub p.data text = true →
      (∀ q ∈ ps, q ≠ p → containsSub q.data text = false) →
      ∀ st, ps.foldl (exclusionStep text) st = exclusionStep text st p := by
  intro ps
  induction ps with
  | nil => intro _ p hp; exact absurd hp (List.not_mem_nil p)
  | cons q rest ih =>
    intro hnd p hp hcp hothers st
    simp only [List.foldl_cons]
    rcases List.mem_cons.mp hp with hqp | hprest
    · subst hqp
      apply foldl_exclusionStep_no_match
      intro q' hq'
      refine hothers q' (List.mem_cons_of_mem _ hq') fun he => ?hcontr
      exact (List.nodup_cons.mp hnd).1 (he ▸ hq')
    · have hqnep : q ≠ p := fun he => (List.nodup_cons.mp hnd).1 (he ▸ hprest)
      have hq : containsSub q.data text = false := hothers q (by simp) hqnep
      rw [show exclusionStep text st q = st from by unfold exclusionStep; rw [if_neg (by simp [hq])]]
      exact ih (List.nodup_cons.mp hnd).2 p hprest hcp
        (fun q' hq' => hothers q' (List.mem_cons_of_mem _ hq')) st

lemma exclusion_patterns_nodup : exclusion_patterns.Nodup := by decide

lemma applyExclusions_single (text : List Char) (p : String)
    (hmem : p ∈ exclusion_patterns) (hp : containsSub p.data text = true)
    (honly : ∀ q ∈ exclusion_patterns, q ≠ p → containsSub q.data text = false)
    (st : Nat × String × Bool) :
    applyExclusions text st =
      (max 0 (st.1 - 30), overrideReasonHead ++ p ++ overrideReasonTail,
        decide (threshold ≤ max 0 (st.1 - 30))) := by
  unfold applyExclusions
  rw [foldl_exclusionStep_single text exclusion_patterns exclusion_patterns_nodup
    p hmem hp honly st]
  unfold exclusionStep
  rw [if_pos hp]

/-! ## Claim theorems for the relevance validator -/

/-- C4: in the relevance score, a lexicon term found in the title
contributes exactly twice its weight (double a single body match), and
a term found in the body contributes its weight times its occurrence
count capped at 3, summed over the whole lexicon. -/
theorem score_title_double_body_capped (title text : List Char) :
    rawScore title text =
      (ai_terms.map fun tw =>
        (if containsSub tw.1.data title then 2 * tw.2 else 0) +
        (if containsSub tw.1.data text then tw.2 * min (countOccs tw.1.data text) 3 else 0)).sum := by
  rw [rawScore_counts]
  have ht := mapCongrOn ai_terms
    (fun tw => if containsSub tw.1.data title then tw.2 * 2 else 0)
    (fun tw => if containsSub tw.1.data title then 2 * tw.2 else 0)
    (fun tw _ => by
      by_cases hc : containsSub tw.1.data title = true
      · simp only [if_pos hc, Nat.mul_comm]
      · simp only [if_neg hc])
  have hb := mapCongrOn ai_terms
    (fun tw => tw.2 * min (countOccs tw.1.data text) 3)
    (fun tw => if containsSub tw.1.data text then tw.2 * min (countOccs tw.1.data text) 3 else 0)
    (fun tw htw => by
      by_cases hc : containsSub tw.1.data text = true
      · simp only [if_pos hc]
      · have hc' : containsSub tw.1.data text = false := Bool.eq_false_iff.mpr hc
        simp [countOccs_eq_zero_of_not_contains tw.1.data text (ai_terms_data_ne tw htw) hc',
          if_neg hc])
  rw [ht, hb]
  exact (sumMapAdd ai_terms
    (fun tw => if containsSub tw.1.data title then 2 * tw.2 else 0)
    (fun tw => if containsSub tw.1.data text then tw.2 * min (countOccs tw.1.data text) 3 else 0)).symm

/-- C2 (amended): `is_relevant` is true exactly when the normalized
0-100 score reaches the acceptance threshold, but the threshold is
hard-coded inside the validator at 25 — it is not a parameter and its
value is not 40. -/
theorem relevance_iff_hardcoded_threshold (a : ArticleData) :
    (validate_ai_relevance a).is_relevant = true ↔
      threshold ≤ (validate_ai_relevance a).confidence := by
  by_cases h : ((lowerStr a.content.data).isEmpty && (lowerStr a.summary.data).isEmpty) = true
  · rw [validate_of_empty a h]
    show false = true ↔ threshold ≤ 0
    simp [threshold]
  · rw [validate_of_main a (Bool.eq_false_iff.mpr h)]
    unfold validateMain
    simp only []
    rw [show applyExclusions (analyzedText a)
        (normalizeScore (scorePass (lowerStr a.title.data) (analyzedText a)).1,
         (reasonFor (normalizeScore (scorePass (lowerStr a.title.data) (analyzedText a)).1)
           (scorePass (lowerStr a.title.data) (analyzedText a)).2
           (decide (threshold ≤ normalizeScore (scorePass (lowerStr a.title.data) (analyzedText a)).1))).2,
         decide (threshold ≤ normalizeScore (scorePass (lowerStr a.title.data) (analyzedText a)).1)) =
        exclusion_patterns.foldl (exclusionStep (analyzedText a)) _ from rfl]
    rw [foldl_exclusionStep_isRel (analyzedText a) exclusion_patterns _ _ _ rfl]
    simp [decide_eq_true_eq]

/-- Concrete input on which the claimed default threshold of 40 is
contradicted: a candidate scoring 26 is accepted by the code. -/
def c2Article : ArticleData :=
  { title := "",
    content := "machine learning machine learning machine learning deep learning",
    summary := "" }

/-- C2 counterexample: the validator accepts a candidate whose
normalized score is below 40, because the hard-coded threshold is 25;
there is no threshold parameter defaulting to 40. -/
theorem relevance_threshold_40_counterexample :
    (validate_ai_relevance c2Article).is_relevant = true ∧
      (validate_ai_relevance c2Article).confidence < 40 := by
  exact ⟨by decide, by decide⟩

/-- C10: with both content and summary empty, the validator rejects
with confidence 0 and the fixed no-content reason, no matter what the
title contains. -/
theorem empty_content_rejected (t : String) :
    (validate_ai_relevance { title := t, content := "", summary := "" }).is_relevant = false ∧
    (validate_ai_relevance { title := t, content := "", summary := "" }).confidence = 0 ∧
    (validate_ai_relevance { title := t, content := "", summary := "" }).reason = noContentReason := by
  have h := validate_of_empty { title := t, content := "", summary := "" } (by rfl)
  rw [h]
  exact ⟨rfl, rfl, rfl⟩

/-- C5: when the analyzed text matches exactly one denylisted phrase,
the normalized score drops by a flat 30 points (floored at 0), the
reason is overridden to report the non-AI use of the term even if
lexicon terms matched, and relevance is recomputed on the reduced
score. -/
theorem exclusion_penalty_overrides (a : ArticleData) (p : String)
    (hmem : p ∈ exclusion_patterns)
    (hmain : ((lowerStr a.content.data).isEmpty && (lowerStr a.summary.data).isEmpty) = false)
    (hp : containsSub p.data (analyzedText a) = true)
    (honly : ∀ q ∈ exclusion_patterns, q ≠ p → containsSub q.data (analyzedText a) = false) :
    (validate_ai_relevance a).confidence =
      max 0 (normalizeScore (rawScore (lowerStr a.title.data) (analyzedText a)) - 30) ∧
    (validate_ai_relevance a).reason = overrideReasonHead ++ p ++ overrideReasonTail ∧
    (validate_ai_relevance a).is_relevant =
      decide (threshold ≤ max 0 (normalizeScore (rawScore (lowerStr a.title.data) (analyzedText a)) - 30)) := by
  rw [validate_of_main a hmain]
  unfold validateMain
  simp only []
  rw [applyExclusions_single (analyzedText a) p hmem hp honly]
  exact ⟨rfl, rfl, rfl⟩

/-- Concrete candidate whose only match is the denylisted phrase. -/
def c5Article : ArticleData :=
  { title := "",
    content := "the farm used artificial insemination last year",
    summary := "" }

def insemPattern : String := "artificial insemination"

/-- C5 witness: on the concrete "artificial insemination" candidate the
penalty fires, the reason is overridden and the verdict is not
relevant. -/
theorem exclusion_penalty_overrides_witness :
    (insemPattern ∈ exclusion_patterns ∧
      containsSub insemPattern.data (analyzedText c5Article) = true) ∧
    (validate_ai_relevance c5Article).confidence = 0 ∧
    (validate_ai_relevance c5Article).reason =
      overrideReasonHead ++ insemPattern ++ overrideReasonTail ∧
    (validate_ai_relevance c5Article).is_relevant = false := by
  have h := exclusion_penalty_overrides c5Article insemPattern
    (by decide) (by decide) (by decide) (by decide)
  refine ⟨⟨by decide, by decide⟩, ?hconf, h.2.1, ?hrel⟩
  · rw [h.1]
    decide
  · rw [h.2.2]
    decide

/-! ## Monotonicity machinery (C6) -/

/-- Score component of one exclusion-loop step. -/
def penaltyStep (text : List Char) (acc : Nat) (p : String) : Nat :=
  if containsSub p.data text then max 0 (acc - 30) else acc

lemma foldl_exclusionStep_fst (text : List Char) :
    ∀ (ps : List String) (st : Nat × String × Bool),
      (ps.foldl (exclusionStep text) st).1 = ps.foldl (penaltyStep text) st.1 := by
  intro ps
  induction ps with
  | nil => intro st; rfl
  | cons p rest ih =>
    intro st
    simp only [List.foldl_cons]
    by_cases hc : containsSub p.data text = true
    · rw [show exclusionStep text st p =
          (max 0 (st.1 - 30), overrideReasonHead ++ p ++ overrideReasonTail,
            decide (threshold ≤ max 0 (st.1 - 30))) from by
          unfold exclusionStep; rw [if_pos hc],
        show penaltyStep text st.1 p = max 0 (st.1 - 30) from by
          unfold penaltyStep; rw [if_pos hc]]
      exact ih _
    · rw [show exclusionStep text st p = st from by unfold exclusionStep; rw [if_neg hc],
        show penaltyStep text st.1 p = st.1 from by unfold penaltyStep; rw [if_neg hc]]
      exact ih _

lemma penaltyFold_mono (t₁ t₂ : List Char) :
    ∀ (ps : List String) (n₁ n₂ : Nat),
      (∀ p ∈ ps, containsSub p.data t₁ = true → containsSub p.data t₂ = true) →
      n₁ ≤ n₂ →
      ps.foldl (penaltyStep t₂) n₁ ≤ ps.foldl (penaltyStep t₁) n₂ := by
  intro ps
  induction ps with
  | nil => intro n₁ n₂ _ h; exact h
  | cons p rest ih =>
    intro n₁ n₂ himp hle
    simp only [List.foldl_cons]
    have hrest : ∀ q ∈ rest, containsSub q.data t₁ = true → containsSub q.data t₂ = true :=
      fun q hq => himp q (by simp [hq])
    by_cases h1 : containsSub p.data t₁ = true
    · have h2 : containsSub p.data t₂ = true := himp p (by simp) h1
      rw [show penaltyStep t₂ n₁ p = max 0 (n₁ - 30) from by unfold penaltyStep; rw [if_pos h2],
        show penaltyStep t₁ n₂ p = max 0 (n₂ - 30) from by unfold penaltyStep; rw [if_pos h1]]
      exact ih _ _ hrest (by omega)
    · rw [show penaltyStep t₁ n₂ p = n₂ from by unfold penaltyStep; rw [if_neg h1]]
      by_cases h2 : containsSub p.data t₂ = true
      · rw [show penaltyStep t₂ n₁ p = max 0 (n₁ - 30) from by unfold penaltyStep; rw [if_pos h2]]
        exact ih _ _ hrest (by omega)
      · rw [show penaltyStep t₂ n₁ p = n₁ from by unfold penaltyStep; rw [if_neg h2]]
        exact ih _ _ hrest hle

lemma normalizeScore_mono {a b : Nat} (h : a ≤ b) : normalizeScore a ≤ normalizeScore b := by
  unfold normalizeScore
  by_cases ha : a = 87
  · by_cases hb : b = 87
    · simp [ha, hb]
    · subst ha
      have h58 : 58 ≤ b * 100 / 150 := by
        calc 58 = 8800 / 150 := by norm_num
        _ ≤ b * 100 / 150 := Nat.div_le_div_right (by omega)
      have e1 : (if (87 : Nat) = 87 then 57 else 87 * 100 / 150) = 57 := if_pos rfl
      have e2 : (if b = 87 then 57 else b * 100 / 150) = b * 100 / 150 := if_neg hb
      rw [e1, e2]
      omega
  · by_cases hb : b = 87
    · subst hb
      have h57 : a * 100 / 150 ≤ 57 := by
        calc a * 100 / 150 ≤ 8600 / 150 := Nat.div_le_div_right (by omega)
        _ = 57 := by norm_num
      have e1 : (if a = 87 then 57 else a * 100 / 150) = a * 100 / 150 := if_neg ha
      have e2 : (if (87 : Nat) = 87 then 57 else 87 * 100 / 150) = 57 := if_pos rfl
      rw [e1, e2]
      omega
    · have hdiv : a * 100 / 150 ≤ b * 100 / 150 := Nat.div_le_div_right (by omega)
      have e1 : (if a = 87 then 57 else a * 100 / 150) = a * 100 / 150 := if_neg ha
      have e2 : (if b = 87 then 57 else b * 100 / 150) = b * 100 / 150 := if_neg hb
      rw [e1, e2]
      omega

lemma validate_confidence_main (a : ArticleData)
    (h : ((lowerStr a.content.data).isEmpty && (lowerStr a.summary.data).isEmpty) = false) :
    (validate_ai_relevance a).confidence =
      exclusion_patterns.foldl (penaltyStep (analyzedText a))
        (normalizeScore (rawScore (lowerStr a.title.data) (analyzedText a))) := by
  rw [validate_of_main a h]
  unfold validateMain
  simp only []
  exact foldl_exclusionStep_fst (analyzedText a) exclusion_patterns _

lemma analyzedText_fields (t c s : String) (h : (lowerStr c.data).isEmpty = false) :
    analyzedText { title := t, content := c, summary := s } = lowerStr c.data := by
  unfold analyzedText
  simp [h]

lemma rawScore_le_of_counts_le (title text₁ text₂ : List Char)
    (h : ∀ tw ∈ ai_terms, countOccs tw.1.data text₁ ≤ countOccs tw.1.data text₂) :
    rawScore title text₁ ≤ rawScore title text₂ := by
  rw [rawScore_counts, rawScore_counts]
  have hbody := sumMapLe ai_terms
    (fun tw => tw.2 * min (countOccs tw.1.data text₁) 3)
    (fun tw => tw.2 * min (countOccs tw.1.data text₂) 3)
    (fun tw htw => Nat.mul_le_mul_left tw.2 (by have := h tw htw; omega))
  omega

lemma rawScore_eq_of_counts_eq (title text₁ text₂ : List Char)
    (h : ∀ tw ∈ ai_terms, countOccs tw.1.data text₁ = countOccs tw.1.data text₂) :
    rawScore title text₁ = rawScore title text₂ := by
  rw [rawScore_counts, rawScore_counts]
  rw [mapCongrOn ai_terms
    (fun tw => tw.2 * min (countOccs tw.1.data text₁) 3)
    (fun tw => tw.2 * min (countOccs tw.1.data text₂) 3)
    (fun tw htw => by simp only [h tw htw])]

/-- C6: adding one more occurrence of a lexicon term to the content
(leaving every other term count and every exclusion-pattern match
unchanged) never decreases the confidence score, and adding a
denylisted exclusion phrase (leaving all lexicon term counts unchanged)
never increases it. -/
theorem score_monotonicity :
    (∀ (t s c₁ c₂ : String) (t0 : String × Nat), t0 ∈ ai_terms →
      (lowerStr c₁.data).isEmpty = false → (lowerStr c₂.data).isEmpty = false →
      (∀ tw ∈ ai_terms, countOccs tw.1.data (lowerStr c₂.data) =
        countOccs tw.1.data (lowerStr c₁.data) + (if tw = t0 then 1 else 0)) →
      (∀ p ∈ exclusion_patterns,
        containsSub p.data (lowerStr c₂.data) = containsSub p.data (lowerStr c₁.data)) →
      (validate_ai_relevance { title := t, content := c₁, summary := s }).confidence ≤
        (validate_ai_relevance { title := t, content := c₂, summary := s }).confidence) ∧
    (∀ (t s c₁ c₂ : String),
      (lowerStr c₁.data).isEmpty = false → (lowerStr c₂.data).isEmpty = false →
      (∀ tw ∈ ai_terms, countOccs tw.1.data (lowerStr c₂.data) =
        countOccs tw.1.data (lowerStr c₁.data)) →
      (∀ p ∈ exclusion_patterns,
        containsSub p.data (lowerStr c₁.data) = true →
          containsSub p.data (lowerStr c₂.data) = true) →
      (validate_ai_relevance { title := t, content := c₂, summary := s }).confidence ≤
        (validate_ai_relevance { title := t, content := c₁, summary := s }).confidence) := by
  constructor
  · intro t s c₁ c₂ t0 ht0 h1 h2 hcount hpat
    have hm1 : ((lowerStr c₁.data).isEmpty && (lowerStr s.data).isEmpty) = false := by
      simp [h1]
    have hm2 : ((lowerStr c₂.data).isEmpty && (lowerStr s.data).isEmpty) = false := by
      simp [h2]
    rw [validate_confidence_main { title := t, content := c₁, summary := s } hm1,
      validate_confidence_main { title := t, content := c₂, summary := s } hm2,
      analyzedText_fields t c₁ s h1, analyzedText_fields t c₂ s h2]
    have hraw : rawScore (lowerStr t.data) (lowerStr c₁.data) ≤
        rawScore (lowerStr t.data) (lowerStr c₂.data) :=
      rawScore_le_of_counts_le _ _ _ fun tw htw => by
        have := hcount tw htw
        omega
    exact penaltyFold_mono (lowerStr c₂.data) (lowerStr c₁.data) exclusion_patterns _ _
      (fun p hp hc => by rw [hpat p hp] at hc; exact hc)
      (normalizeScore_mono hraw)
  · intro t s c₁ c₂ h1 h2 hcount hpat
    have hm1 : ((lowerStr c₁.data).isEmpty && (lowerStr s.data).isEmpty) = false := by
      simp [h1]
    have hm2 : ((lowerStr c₂.data).isEmpty && (lowerStr s.data).isEmpty) = false := by
      simp [h2]
    rw [validate_confidence_main { title := t, content := c₁, summary := s } hm1,
      validate_confidence_main { title := t, content := c₂, summary := s } hm2,
      analyzedText_fields t c₁ s h1, analyzedText_fields t c₂ s h2]
    have hraw : rawScore (lowerStr t.data) (lowerStr c₂.data) =
        rawScore (lowerStr t.data) (lowerStr c₁.data) :=
      rawScore_eq_of_counts_eq _ _ _ fun tw htw => hcount tw htw
    rw [hraw]
    exact penaltyFold_mono (lowerStr c₁.data) (lowerStr c₂.data) exclusion_patterns _ _
      hpat (le_refl _)

def llmTerm : String × Nat := ( r"llm", 8)

def c6content1 : String := "llm"

def c6content2 : String := "llm llm"

def c6content3 : String := "llm american idol"

/-- C6 witness: one extra occurrence of "llm" does not lower the score,
and appending the denylisted phrase "american idol" does not raise it. -/
theorem score_monotonicity_witness :
    (llmTerm ∈ ai_terms ∧
      (∀ tw ∈ ai_terms, countOccs tw.1.data (lowerStr c6content2.data) =
        countOccs tw.1.data (lowerStr c6content1.data) + (if tw = llmTerm then 1 else 0))) ∧
    (validate_ai_relevance { title := "", content := c6content1, summary := "" }).confidence ≤
      (validate_ai_relevance { title := "", content := c6content2, summary := "" }).confidence ∧
    (validate_ai_relevance { title := "", content := c6content3, summary := "" }).confidence ≤
      (validate_ai_relevance { title := "", content := c6content1, summary := "" }).confidence := by
  refine ⟨⟨by decide, by decide⟩, ?hinc, ?hexc⟩
  · exact score_monotonicity.1 "" "" c6content1 c6content2 llmTerm
      (by decide) (by decide) (by decide) (by decide) (by decide)
  · exact score_monotonicity.2 "" "" c6content1 c6content3
      (by decide) (by decide) (by decide) (by decide)

/-! ## Dates and timestamps

Python `datetime` values compare field-lexicographically; in the code
under study all aware datetimes are UTC, so a datetime is a calendar
date plus seconds-of-day, ordered lexicographically. -/

structure Date where
  year : Nat
  month : Nat
  day : Nat
deriving DecidableEq

structure DateTime where
  date : Date
  secs : Nat
deriving DecidableEq

def dateLtB (a b : Date) : Bool :=
  a.year < b.year ||
  (a.year = b.year && (a.month < b.month || (a.month = b.month && a.day < b.day)))

def dtLeB (a b : DateTime) : Bool :=
  dateLtB a.date b.date ||
  (a.date.year = b.date.year && a.date.month = b.date.month &&
    a.date.day = b.date.day && a.secs ≤ b.secs)

lemma dateLtB_iff (a b : Date) : dateLtB a b = true ↔
    (a.year < b.year ∨ (a.year = b.year ∧
      (a.month < b.month ∨ (a.month = b.month ∧ a.day < b.day)))) := by
  unfold dateLtB
  simp [Bool.or_eq_true, Bool.and_eq_true, decide_eq_true_eq]

lemma dtLeB_iff (a b : DateTime) : dtLeB a b = true ↔
    (a.date.year < b.date.year ∨ (a.date.year = b.date.year ∧
      (a.date.month < b.date.month ∨ (a.date.month = b.date.month ∧
        (a.date.day < b.date.day ∨ (a.date.day = b.date.day ∧ a.secs ≤ b.secs)))))) := by
  unfold dtLeB
  rw [Bool.or_eq_true, dateLtB_iff]
  simp only [Bool.and_eq_true, decide_eq_true_eq]
  omega

/-! ## CPython strptime for the two formats the code uses

`datetime.strptime` compiles a format to a regex: `%Y` is exactly four
digits, `%m` is `1[0-2]|0[1-9]|[1-9]`, `%d` is `3[01]|[12]\d|0[1-9]|[1-9]`,
`%H` is `2[0-3]|[0-1]\d|\d`, `%M`/`%S` are `[0-5]\d|\d`, and a literal
space in the format matches one or more whitespace characters.
Alternatives are tried in order with backtracking; after a full match
the whole input must have been consumed and the date must be a real
calendar date, otherwise ValueError.  The `*Alts` functions list a
token's regex alternatives in preference order and `tryAlts` is the
backtracking choice. -/

def isDigitC (c : Char) : Bool := decide (c ≥ '0') && decide (c ≤ '9')

def digitVal (c : Char) : Nat := c.toNat - 48

def parse4Digits : List Char → Option (Nat × List Char)
  | a :: b :: c :: d :: rest =>
    if isDigitC a && isDigitC b && isDigitC c && isDigitC d then
      some (1000 * digitVal a + 100 * digitVal b + 10 * digitVal c + digitVal d, rest)
    else none
  | _ => none

def monthAlts : List Char → List (Nat × List Char)
  | a :: b :: rest =>
    (if a = '1' && (b = '0' || b = '1' || b = '2') then [(10 + digitVal b, rest)]
     else if a = '0' && (isDigitC b && b ≠ '0') then [(digitVal b, rest)]
     else []) ++
    (if isDigitC a && a ≠ '0' then [(digitVal a, b :: rest)] else [])
  | [a] => if isDigitC a && a ≠ '0' then [(digitVal a, [])] else []
  | [] => []

def dayAlts : List Char → List (Nat × List Char)
  | a :: b :: rest =>
    (if a = '3' && (b = '0' || b = '1') then [(30 + digitVal b, rest)]
     else if (a = '1' || a = '2') && isDigitC b then [(10 * digitVal a + digitVal b, rest)]
     else if a = '0' && (isDigitC b && b ≠ '0') then [(digitVal b, rest)]
     else []) ++
    (if isDigitC a && a ≠ '0' then [(digitVal a, b :: rest)] else [])
  | [a] => if isDigitC a && a ≠ '0' then [(digitVal a, [])] else []
  | [] => []

def hourAlts : List Char → List (Nat × List Char)
  | a :: b :: rest =>
    (if a = '2' && (b = '0' || b = '1' || b = '2' || b = '3') then [(20 + digitVal b, rest)]
     else if (a = '0' || a = '1') && isDigitC b then [(10 * digitVal a + digitVal b, rest)]
     else []) ++
    (if isDigitC a then [(digitVal a, b :: rest)] else [])
  | [a] => if isDigitC a then [(digitVal a, [])] else []
  | [] => []

def minSecAlts : List Char → List (Nat × List Char)
  | a :: b :: rest =>
    (if (isDigitC a && a ≤ '5') && isDigitC b then [(10 * digitVal a + digitVal b, rest)]
     else []) ++
    (if isDigitC a then [(digitVal a, b :: rest)] else [])
  | [a] => if isDigitC a then [(digitVal a, [])] else []
  | [] => []

def tryAlts {α : Type} (alts : List (Nat × List Char)) (k : Nat → List Char → Option α) :
    Option α :=
  match alts with
  | [] => none
  | (v, r) :: t =>
    match k v r with
    | some x => some x
    | none => tryAlts t k

def leapYear (y : Nat) : Bool :=
  (y % 4 = 0 && y % 100 ≠ 0) || y % 400 = 0

def daysInMonth (y m : Nat) : Nat :=
  if m = 2 then (if leapYear y then 29 else 28)
  else if m = 4 ∨ m = 6 ∨ m = 9 ∨ m = 11 then 30
  else 31

/-- Validity check performed by the `datetime` constructor after the
regex match (MINYEAR is 1, so a four-digit `0000` year is rejected). -/
def isValidDate (y m d : Nat) : Bool :=
  1 ≤ y && y ≤ 9999 && 1 ≤ m && m ≤ 12 && 1 ≤ d && d ≤ daysInMonth y m

/-- Embedding of `datetime.strptime(s, "%Y-%m-%d")`: `some` of the date
on success, `none` for ValueError. -/
def parseYMD (s : List Char) : Option Date :=
  match parse4Digits s with
  | some (y, '-' :: r2) =>
    tryAlts (monthAlts r2) fun m r3 =>
      match r3 with
      | '-' :: r4 =>
        tryAlts (dayAlts r4) fun d r5 =>
          if r5 = [] && isValidDate y m d then some { year := y, month := m, day := d }
          else none
      | _ => none
  | _ => none

def isSpaceC (c : Char) : Bool :=
  c = ' ' || c = '\t' || c = '\n' || c = '\r' || c = '\x0b' || c = '\x0c'

def skipSpaces1 : List Char → Option (List Char)
  | [] => none
  | c :: r => if isSpaceC c then some (r.dropWhile isSpaceC) else none

/-- Embedding of `datetime.strptime(s, "%Y-%m-%d %H:%M:%S")`. -/
def parseYMDHMS (s : List Char) : Option DateTime :=
  match parse4Digits s with
  | some (y, '-' :: r2) =>
    tryAlts (monthAlts r2) fun m r3 =>
      match r3 with
      | '-' :: r4 =>
        tryAlts (dayAlts r4) fun d r5 =>
          match skipSpaces1 r5 with
          | some r6 =>
            tryAlts (hourAlts r6) fun hh r7 =>
              match r7 with
              | ':' :: r8 =>
                tryAlts (minSecAlts r8) fun mm r9 =>
                  match r9 with
                  | ':' :: r10 =>
                    tryAlts (minSecAlts r10) fun ss r11 =>
                      if r11 = [] && isValidDate y m d then
                        some { date := { year := y, month := m, day := d },
                               secs := hh * 3600 + mm * 60 + ss }
                      else none
                  | _ => none
              | _ => none
          | none => none
      | _ => none
  | _ => none

/-- Shallow embedding of `SearchAgent.parse_date`
(src/agents/search_agent.py, lines 105-114): try `%Y-%m-%d`, then
`%Y-%m-%d %H:%M:%S`, else return the caller's current time, which is
passed explicitly here in place of `datetime.now()`. -/
def parse_date (s : String) (now : DateTime) : DateTime :=
  match parseYMD s.data with
  | some d => { date := d, secs := 0 }
  | none =>
    match parseYMDHMS s.data with
    | some dt => dt
    | none => now

/-! ## The date gate of `find_ai_articles` -/

/-- The comparison `article_date >= cutoff_time` of `find_ai_articles`
(src/utils/content_extractor.py, lines 367-376): the parsed `%Y-%m-%d`
date is localized to midnight UTC and compared as an instant against
the cutoff instant. -/
def articleDateGate (articleDate : Date) (cutoff : DateTime) : Bool :=
  dtLeB cutoff { date := articleDate, secs := 0 }

/-- The whole date-filter step of `find_ai_articles`: strptime the
metadata date (ValueError skips the candidate: `none`), then keep the
candidate iff its midnight instant is not before the cutoff. -/
def find_ai_articles_date_filter (dateStr : String) (cutoff : DateTime) : Option Bool :=
  match parseYMD dateStr.data with
  | some d => some (articleDateGate d cutoff)
  | none => none

/-! ## Claim theorems for dates -/

/-- C1 (amended): the filter compares the publish date at midnight UTC
against the exact cutoff instant, not calendar date against calendar
date.  A candidate dated strictly before the cutoff's calendar day is
always dropped and one dated strictly after always passes, but a
candidate dated on the cutoff's own calendar day passes exactly when
the cutoff's time of day is midnight. -/
theorem date_filter_instant_comparison (d : Date) (c : DateTime) :
    (dateLtB d c.date = true → articleDateGate d c = false) ∧
    (dateLtB c.date d = true → articleDateGate d c = true) ∧
    (d = c.date → (articleDateGate d c = true ↔ c.secs = 0)) := by
  unfold articleDateGate
  refine ⟨fun h => ?h1, fun h => ?h2, fun h => ?h3⟩
  · rw [dateLtB_iff] at h
    apply Bool.eq_false_iff.mpr
    intro hc
    rw [dtLeB_iff] at hc
    dsimp only at hc
    omega
  · rw [dateLtB_iff] at h
    rw [dtLeB_iff]
    dsimp only
    omega
  · subst h
    rw [dtLeB_iff]
    dsimp only
    omega

def c1DateStr : String := "2024-05-25"

/-- Cutoff instant 2024-05-25 10:00:00 UTC. -/
def c1CutoffSameDayMorning : DateTime :=
  { date := { year := 2024, month := 5, day := 25 }, secs := 36000 }

/-- C1 counterexample: an article whose metadata date is the cutoff's
own calendar day ("2024-05-25") is filtered out when the cutoff instant
is 10:00 that day, contradicting the claim that same-day candidates
always pass. -/
theorem date_filter_same_day_counterexample :
    parseYMD c1DateStr.data = some c1CutoffSameDayMorning.date ∧
    find_ai_articles_date_filter c1DateStr c1CutoffSameDayMorning = some false := by
  exact ⟨by decide, by decide⟩

/-- C1 witness: instantiating the same-day case of the amended theorem
at the concrete 10:00 cutoff. -/
theorem date_filter_instant_comparison_witness :
    ({ year := 2024, month := 5, day := 25 } : Date) = c1CutoffSameDayMorning.date ∧
    (articleDateGate { year := 2024, month := 5, day := 25 } c1CutoffSameDayMorning = true ↔
      c1CutoffSameDayMorning.secs = 0) :=
  ⟨rfl, (date_filter_instant_comparison { year := 2024, month := 5, day := 25 }
    c1CutoffSameDayMorning).2.2 rfl⟩

/-- C7: any date string matching neither of the parser's known formats
parses to the supplied reference "now" — no error, no null. -/
theorem unparseable_date_returns_now (s : String) (now : DateTime)
    (h1 : parseYMD s.data = none) (h2 : parseYMDHMS s.data = none) :
    parse_date s now = now := by
  unfold parse_date
  rw [h1, h2]

def c7Str : String := "not a date"

def c7Now : DateTime := { date := { year := 2025, month := 1, day := 1 }, secs := 0 }

/-- C7 witness: the concrete string "not a date" matches no format and
parses to the reference now. -/
theorem unparseable_date_returns_now_witness :
    (parseYMD c7Str.data = none ∧ parseYMDHMS c7Str.data = none) ∧
    parse_date c7Str c7Now = c7Now :=
  ⟨⟨by decide, by decide⟩, unparseable_date_returns_now c7Str c7Now (by decide) (by decide)⟩

def isoDateStr : String := "2024-06-01"

def isoDateTimeStr : String := "2024-06-01 13:30:05"

def relAgoStr : String := "2 days ago"

def monthNameStr : String := "Jun 01, 2024"

def slashDateStr : String := "2024/06/01"

def dmyDateStr : String := "01-06-2024"

/-- C8 (amended): the parser recognizes exactly the formats `%Y-%m-%d`
and `%Y-%m-%d %H:%M:%S`; relative "N unit ago" phrases and the formats
`%b %d, %Y`, `%Y/%m/%d` and `%d-%m-%Y` are not recognized and fall back
to the reference now instead of being converted. -/
theorem parse_date_accepted_formats (now : DateTime) :
    parse_date isoDateStr now =
      { date := { year := 2024, month := 6, day := 1 }, secs := 0 } ∧
    parse_date isoDateTimeStr now =
      { date := { year := 2024, month := 6, day := 1 }, secs := 48605 } ∧
    parse_date relAgoStr now = now ∧
    parse_date monthNameStr now = now ∧
    parse_date slashDateStr now = now ∧
    parse_date dmyDateStr now = now := by
  exact ⟨rfl, rfl, rfl, rfl, rfl, rfl⟩

/-- Reference now 2024-06-10 00:00:00 for the C8 counterexample. -/
def c8Now : DateTime := { date := { year := 2024, month := 6, day := 10 }, secs := 0 }

/-- C8 counterexample: for "2 days ago" the claim requires now minus
two days (2024-06-08), but the parser returns now itself — relative
phrases are not supported. -/
theorem parse_date_relative_counterexample :
    parse_date relAgoStr c8Now = c8Now ∧
    c8Now ≠ { date := { year := 2024, month := 6, day := 8 }, secs := 0 } := by
  exact ⟨rfl, by decide⟩

end GaiInsights

namespace GaiInsights

/-! ## HTTP fetch layer (`make_request_with_backoff`,
src/utils/content_extractor.py, lines 231-252)

An attempt's outcome is a response status, a timeout, or a connection
error.  `requests.get` followed by `raise_for_status()` returns the
response iff the status is below 400; a 4xx/5xx status raises
`HTTPError`, which — like `Timeout` and `ConnectionError` — is a
`requests.exceptions.RequestException` and is caught by the loop's
single except clause.  On the final attempt the caught exception is
re-raised. -/

inductive ReqOutcome where
  | ok (status : Nat)
  | timeout
  | connError
deriving DecidableEq

inductive FetchErr where
  | httpError (status : Nat)
  | timeout
  | connError
deriving DecidableEq

/-- Does this attempt outcome raise a `RequestException`? -/
def isFailure : ReqOutcome → Bool
  | ReqOutcome.ok s => decide (400 ≤ s)
  | ReqOutcome.timeout => true
  | ReqOutcome.connError => true

/-- The exception an attempt outcome raises (meaningful only when
`isFailure` holds). -/
def errOf : ReqOutcome → FetchErr
  | ReqOutcome.ok s => FetchErr.httpError s
  | ReqOutcome.timeout => FetchErr.timeout
  | ReqOutcome.connError => FetchErr.connError

/-- The retry loop; `remaining` counts iterations left, `attempt` is the
Python loop index.  The result is the raised exception
(`Except.error`), the returned response status (`Except.ok (some s)`),
or the fall-through `return None` (`Except.ok none`), paired with the
number of requests issued. -/
def backoffGo (world : Nat → ReqOutcome) (maxRetries : Nat) :
    Nat → Nat → Except FetchErr (Option Nat) × Nat
  | 0, attempt => (Except.ok none, attempt)
  | remaining + 1, attempt =>
    match world attempt with
    | ReqOutcome.ok s =>
      if s < 400 then (Except.ok (some s), attempt + 1)
      else if attempt = maxRetries - 1 then (Except.error (FetchErr.httpError s), attempt + 1)
      else backoffGo world maxRetries remaining (attempt + 1)
    | ReqOutcome.timeout =>
      if attempt = maxRetries - 1 then (Except.error FetchErr.timeout, attempt + 1)
      else backoffGo world maxRetries remaining (attempt + 1)
    | ReqOutcome.connError =>
      if attempt = maxRetries - 1 then (Except.error FetchErr.connError, attempt + 1)
      else backoffGo world maxRetries remaining (attempt + 1)

/-- Shallow embedding of `make_request_with_backoff(url, max_retries=3)`;
`world i` is the outcome of the request on loop iteration `i` (the
backoff sleeps do not affect the result). -/
def make_request_with_backoff (world : Nat → ReqOutcome) (maxRetries : Nat := 3) :
    Except FetchErr (Option Nat) × Nat :=
  backoffGo world maxRetries maxRetries 0

lemma backoffGo_step_fail (world : Nat → ReqOutcome) (maxRetries remaining attempt : Nat)
    (hfail : isFailure (world attempt) = true) (hnotlast : attempt ≠ maxRetries - 1) :
    backoffGo world maxRetries (remaining + 1) attempt =
      backoffGo world maxRetries remaining (attempt + 1) := by
  show (match world attempt with
    | ReqOutcome.ok s =>
      if s < 400 then (Except.ok (some s), attempt + 1)
      else if attempt = maxRetries - 1 then (Except.error (FetchErr.httpError s), attempt + 1)
      else backoffGo world maxRetries remaining (attempt + 1)
    | ReqOutcome.timeout =>
      if attempt = maxRetries - 1 then (Except.error FetchErr.timeout, attempt + 1)
      else backoffGo world maxRetries remaining (attempt + 1)
    | ReqOutcome.connError =>
      if attempt = maxRetries - 1 then (Except.error FetchErr.connError, attempt + 1)
      else backoffGo world maxRetries remaining (attempt + 1)) =
    backoffGo world maxRetries remaining (attempt + 1)
  cases hw : world attempt with
  | ok s =>
    rw [hw] at hfail
    have hs : ¬ s < 400 := by
      simp only [isFailure, decide_eq_true_eq] at hfail
      omega
    dsimp only
    rw [if_neg hs, if_neg hnotlast]
  | timeout =>
    dsimp only
    rw [if_neg hnotlast]
  | connError =>
    dsimp only
    rw [if_neg hnotlast]

lemma backoffGo_last_fail (world : Nat → ReqOutcome) (maxRetries remaining attempt : Nat)
    (hfail : isFailure (world attempt) = true) (hlast : attempt = maxRetries - 1) :
    backoffGo world maxRetries (remaining + 1) attempt =
      (Except.error (errOf (world attempt)), attempt + 1) := by
  show (match world attempt with
    | ReqOutcome.ok s =>
      if s < 400 then (Except.ok (some s), attempt + 1)
      else if attempt = maxRetries - 1 then (Except.error (FetchErr.httpError s), attempt + 1)
      else backoffGo world maxRetries remaining (attempt + 1)
    | ReqOutcome.timeout =>
      if attempt = maxRetries - 1 then (Except.error FetchErr.timeout, attempt + 1)
      else backoffGo world maxRetries remaining (attempt + 1)
    | ReqOutcome.connError =>
      if attempt = maxRetries - 1 then (Except.error FetchErr.connError, attempt + 1)
      else backoffGo world maxRetries remaining (attempt + 1)) =
    (Except.error (errOf (world attempt)), attempt + 1)
  cases hw : world attempt with
  | ok s =>
    rw [hw] at hfail
    have hs : ¬ s < 400 := by
      simp only [isFailure, decide_eq_true_eq] at hfail
      omega
    dsimp only
    rw [if_neg hs, if_pos hlast]
    rfl
  | timeout =>
    dsimp only
    rw [if_pos hlast]
    rfl
  | connError =>
    dsimp only
    rw [if_pos hlast]
    rfl

/-- C9 (amended): all request failures — 404 responses included — are
retried alike.  When every attempt fails, the fetch layer issues
exactly 3 requests and re-raises the exception of the third attempt
(HTTPError for a 404, Timeout for a timeout): there is no immediate
failure on 404 and no distinct TooManyRetries signal. -/
theorem backoff_three_attempts_reraises_last (world : Nat → ReqOutcome)
    (h : ∀ i, i < 3 → isFailure (world i) = true) :
    make_request_with_backoff world 3 = (Except.error (errOf (world 2)), 3) := by
  unfold make_request_with_backoff
  rw [backoffGo_step_fail world 3 2 0 (h 0 (by omega)) (by omega),
    backoffGo_step_fail world 3 1 1 (h 1 (by omega)) (by omega),
    backoffGo_last_fail world 3 0 2 (h 2 (by omega)) (by omega)]

def always404World : Nat → ReqOutcome := fun _ => ReqOutcome.ok 404

def alwaysTimeoutWorld : Nat → ReqOutcome := fun _ => ReqOutcome.timeout

/-- C9 counterexample: on a URL that always answers 404, the fetch
layer performs 3 attempts, not 1 — it does not fail immediately on a
404 — and the final signal is the re-raised HTTPError 404, not a
distinct TooManyRetries. -/
theorem backoff_404_counterexample :
    (make_request_with_backoff always404World 3).2 = 3 ∧
    (make_request_with_backoff always404World 3).2 ≠ 1 ∧
    make_request_with_backoff always404World 3 =
      (Except.error (FetchErr.httpError 404), 3) := by
  exact ⟨rfl, by decide, rfl⟩

/-- C9 witness: the always-timeout world satisfies the failure
hypothesis and indeed gets exactly 3 attempts and a Timeout error. -/
theorem backoff_three_attempts_reraises_last_witness :
    (∀ i, i < 3 → isFailure (alwaysTimeoutWorld i) = true) ∧
    make_request_with_backoff alwaysTimeoutWorld 3 =
      (Except.error FetchErr.timeout, 3) :=
  ⟨by decide, backoff_three_attempts_reraises_last alwaysTimeoutWorld (by decide)⟩

end GaiInsights

namespace GaiInsights

/-! ## Pipeline orchestrator (`process_batch`, src/main.py, lines 162-275)

The world abstracts the effectful collaborators: `find` is
`find_ai_articles` restricted to one source, `extract` is
`extract_full_content` (`none` for a `None` return), and `summarize`
stands for `summarize_article` together with the code's
catch-and-default handling, so it always yields a summary string.
The UI progress updates and the database write do not affect the
returned article list and are omitted. -/

structure FoundArticle where
  title : String
  url : String
  date : String
deriving DecidableEq

structure ScanWorld where
  find : String → List FoundArticle
  extract : String → Option String
  summarize : String → String

structure OutArticle where
  title : String
  url : String
  date : String
  summary : String
  source : String
deriving DecidableEq

/-- Orchestrator state: `processedSources` is
`st.session_state.processed_urls` (sources already scanned), `seen` is
`seen_urls`, `articles` the accumulated batch articles, and
`extracted` the trace of URLs handed to `extract_full_content`. -/
structure BatchState where
  processedSources : List String
  seen : List String
  articles : List OutArticle
  extracted : List String
deriving DecidableEq

/-- Body of the per-article loop: skip if the URL was already seen;
otherwise extract content, and only when the content is truthy
(`if content:`) append the article and mark the URL seen. -/
def processArticle (w : ScanWorld) (source : String) (st : BatchState) (a : FoundArticle) :
    BatchState :=
  if a.url ∈ st.seen then st
  else
    let st1 := { st with extracted := st.extracted ++ [a.url] }
    match w.extract a.url with
    | some content =>
      if content.isEmpty then st1
      else
        { st1 with
          articles := st1.articles ++
            [{ title := a.title, url := a.url, date := a.date,
               summary := w.summarize content, source := source }],
          seen := st1.seen ++ [a.url] }
    | none => st1

/-- Body of the per-source loop: skip sources already processed, else
run the article loop over the source's candidates and mark the source
processed. -/
def processSource (w : ScanWorld) (st : BatchState) (source : String) : BatchState :=
  if source ∈ st.processedSources then st
  else
    let st1 := (w.find source).foldl (processArticle w source) st
    { st1 with processedSources := st1.processedSources ++ [source] }

/-- Shallow embedding of `process_batch`.  The main loop feeds
consecutive batches through `process_batch` against shared `seen_urls`
and session state, so a whole run is one fold over all sources. -/
def process_batch (w : ScanWorld) (sources : List String) (st : BatchState) : BatchState :=
  sources.foldl (processSource w) st

def initialBatchState : BatchState :=
  { processedSources := [], seen := [], articles := [], extracted := [] }

/-- One whole scan run: `seen_urls = set()` is reset, then every batch
is processed in order. -/
def processRun (w : ScanWorld) (sources : List String) : BatchState :=
  process_batch w sources initialBatchState

/-- Does extraction of this URL yield truthy content? -/
def extractsOk (w : ScanWorld) (u : String) : Bool :=
  match w.extract u with
  | some content => !content.isEmpty
  | none => false

/-- Run invariant: emitted URLs are pairwise distinct, every emitted
URL is in the seen set, and a URL whose extraction succeeds is
extracted at most once — and once extracted it is in the seen set. -/
def BatchInv (w : ScanWorld) (st : BatchState) : Prop :=
  (st.articles.map OutArticle.url).Nodup ∧
  (∀ u, u ∈ st.articles.map OutArticle.url → u ∈ st.seen) ∧
  (∀ u, extractsOk w u = true →
    st.extracted.count u ≤ 1 ∧ (st.extracted.count u = 1 → u ∈ st.seen))

lemma count_append_singleton (l : List String) (v u : String) :
    (l ++ [v]).count u = l.count u + if v = u then 1 else 0 := by
  by_cases h : v = u
  · simp [h, List.count_append]
  · simp [List.count_append, h]
    rw [List.count_singleton']
    simp [h]

lemma processArticle_inv (w : ScanWorld) (source : String) (st : BatchState)
    (a : FoundArticle) (hinv : BatchInv w st) : BatchInv w (processArticle w source st a) := by
  unfold processArticle
  by_cases hseen : a.url ∈ st.seen
  · rw [if_pos hseen]
    exact hinv
  · rw [if_neg hseen]
    obtain ⟨hnd, hsub, hcnt⟩ := hinv
    cases hx : w.extract a.url with
    | some content =>
      dsimp only
      by_cases hemp : content.isEmpty = true
      · rw [if_pos hemp]
        refine ⟨hnd, hsub, fun u hu => ?hok⟩
        dsimp only
        rw [count_append_singleton]
        by_cases huu : a.url = u
        · subst huu
          rw [extractsOk, hx] at hu
          simp [hemp] at hu
        · simp only [if_neg huu, Nat.add_zero]
          exact hcnt u hu
      · rw [if_neg hemp]
        have hnotout : a.url ∉ st.articles.map OutArticle.url := fun hc => hseen (hsub _ hc)
        refine ⟨?hnd2, ?hsub2, ?hcnt2⟩
        · dsimp only
          rw [List.map_append]
          refine List.Nodup.append hnd (by simp) ?hdisj
          intro u hu hc
          simp at hc
          exact hnotout (hc ▸ hu)
        · intro u hu
          dsimp only at hu ⊢
          rw [List.map_append] at hu
          rcases List.mem_append.mp hu with h1 | h2
          · exact List.mem_append.mpr (Or.inl (hsub u h1))
          · simp at h2
            simp [h2]
        · intro u hu
          dsimp only
          rw [count_append_singleton]
          by_cases huu : a.url = u
          · subst huu
            have hzero : st.extracted.count a.url = 0 := by
              rcases hcnt a.url hu with ⟨hle, hone⟩
              by_cases h0 : st.extracted.count a.url = 0
              · exact h0
              · exact absurd (hone (by omega)) hseen
            rw [hzero]
            simp
          · simp only [if_neg huu, Nat.add_zero]
            rcases hcnt u hu with ⟨hle, hone⟩
            exact ⟨hle, fun h1 => List.mem_append.mpr (Or.inl (hone h1))⟩
    | none =>
      dsimp only
      refine ⟨hnd, hsub, fun u hu => ?hok2⟩
      dsimp only
      rw [count_append_singleton]
      by_cases huu : a.url = u
      · subst huu
        rw [extractsOk, hx] at hu
        simp at hu
      · simp only [if_neg huu, Nat.add_zero]
        exact hcnt u hu

lemma foldl_processArticle_inv (w : ScanWorld) (source : String) :
    ∀ (l : List FoundArticle) (st : BatchState), BatchInv w st →
      BatchInv w (l.foldl (processArticle w source) st) := by
  intro l
  induction l with
  | nil => intro st h; exact h
  | cons a rest ih =>
    intro st h
    exact ih _ (processArticle_inv w source st a h)

lemma processSource_inv (w : ScanWorld) (st : BatchState) (source : String)
    (hinv : BatchInv w st) : BatchInv w (processSource w st source) := by
  unfold processSource
  by_cases hdone : source ∈ st.processedSources
  · rw [if_pos hdone]
    exact hinv
  · rw [if_neg hdone]
    have h1 := foldl_processArticle_inv w source (w.find source) st hinv
    exact ⟨h1.1, h1.2.1, h1.2.2⟩

lemma process_batch_inv (w : ScanWorld) :
    ∀ (sources : List String) (st : BatchState), BatchInv w st →
      BatchInv w (process_batch w sources st) := by
  intro sources
  induction sources with
  | nil => intro st h; exact h
  | cons s rest ih =>
    intro st h
    exact ih _ (processSource_inv w st s h)

lemma initialBatchState_inv (w : ScanWorld) : BatchInv w initialBatchState := by
  refine ⟨List.nodup_nil, fun u hu => absurd hu (List.not_mem_nil u), fun u _ => ⟨?c1, ?c2⟩⟩
  · simp [initialBatchState]
  · intro h
    simp [initialBatchState] at h

/-- C3: over a whole run the Article list holds at most one entry per
URL (its URL sequence is pairwise distinct), and any URL whose content
extraction yields truthy content is content-extracted at most once,
however many source sites link to it. -/
theorem dedup_global_by_url (w : ScanWorld) (sources : List String) (u : String)
    (hu : extractsOk w u = true) :
    ((processRun w sources).articles.map OutArticle.url).Nodup ∧
    (processRun w sources).extracted.count u ≤ 1 := by
  have hinv := process_batch_inv w sources initialBatchState (initialBatchState_inv w)
  exact ⟨hinv.1, (hinv.2.2 u hu).1⟩

def xUrl : String := "https://example.com/x"

def srcA : String := "https://site-a.example"

def srcB : String := "https://site-b.example"

def xBody : String := "body text"

def xSummary : String := "summary text"

/-- Two different source sites that both link to the identical URL. -/
def c3World : ScanWorld :=
  { find := fun s =>
      if s = srcA ∨ s = srcB then
        [{ title := xUrl, url := xUrl, date := xUrl }]
      else [],
    extract := fun _ => some xBody,
    summarize := fun _ => xSummary }

/-- C3 witness: with two sources both linking `https://example.com/x`,
the final Article list contains exactly one entry for that URL and the
URL is extracted exactly once. -/
theorem dedup_global_by_url_witness :
    extractsOk c3World xUrl = true ∧
    ((processRun c3World [srcA, srcB]).articles.map OutArticle.url).Nodup ∧
    (processRun c3World [srcA, srcB]).extracted.count xUrl ≤ 1 ∧
    (processRun c3World [srcA, srcB]).articles.map OutArticle.url = [xUrl] := by
  refine ⟨by decide, (dedup_global_by_url c3World [srcA, srcB] xUrl (by decide)).1,
    (dedup_global_by_url c3World [srcA, srcB] xUrl (by decide)).2, by decide⟩

end GaiInsights
